import Mathlib

/-!
Verification development for the sort-and-project splat compute pipeline
(`src/webgpu/SortComputePass.ts`, `src/webgpu/tslHelpers.ts`,
`src/webgpu/WebGPUSplatPipeline.ts`).

Modelling conventions: machine floating-point scalars are modelled as real
numbers (`ℝ`).  The CPU sorting keys only matter through their ordering, so
they are modelled as rationals (`ℚ`), which keeps the sorting code and all
sorting theorems kernel-decidable on concrete inputs.  Packed 32-bit words
are modelled as `ℕ` with explicit masking/shifting.
-/

namespace Spark

/-! ### Sorter: `SortComputePass.sort`, SortComputePass.ts:251-284

The CPU sort receives the key array `distances` (indexed by splat index) and
sorts the identity-initialised index array `indices[0..numSplats)` so that
keys are non-increasing along the result (back-to-front order). -/

/-- Inner `while` loop of the insertion-sort branch (SortComputePass.ts:264-269),
acting on the already-sorted prefix kept in reversed order (rightmost element
first, which is where the source's scan starts).  An element `y` with
`d y < d x` is scanned over — the source shifts it one slot to the right —
and `x` is placed at the first element with key `≥ d x`, mirroring
`while (j >= 0 && distances[indices[j]] < dist)` followed by
`indices[j + 1] = idx`. -/
def insertRev (d : ℕ → ℚ) (x : ℕ) : List ℕ → List ℕ
  | [] => [x]
  | y :: ys => if d y < d x then y :: insertRev d x ys else x :: y :: ys

/-- Outer `for` loop of the insertion-sort branch (SortComputePass.ts:261-270):
inserts each next index into the sorted prefix (kept reversed), and returns
the final prefix in array order. -/
def insertionPass (d : ℕ → ℚ) (acc : List ℕ) : List ℕ → List ℕ
  | [] => acc.reverse
  | x :: xs => insertionPass d (insertRev d x acc) xs

/-- Insertion-sort branch of `SortComputePass.sort`, taken when
`numSplats < 1000`: the index array is initialised to `0, 1, …, n-1`
(SortComputePass.ts:252-254) and sorted by descending key. -/
def insertionSortBranch (d : ℕ → ℚ) (n : ℕ) : List ℕ :=
  insertionPass d [] (List.range n)

/-- The `Array.prototype.sort` branch of `SortComputePass.sort`, taken when
`numSplats ≥ 1000` (SortComputePass.ts:272-277):
`indexArray.sort((a, b) => distances[b] - distances[a])`.
ECMAScript specifies `Array.prototype.sort` as a stable sort consistent with
the comparator; under the comparator `distances[b] - distances[a]`, index `a`
sorts no later than `b` iff the comparator value is `≤ 0`, i.e. `d b ≤ d a`.
We model that contract with Mathlib's stable `List.insertionSort` under the
same relation. -/
def arraySortBranch (d : ℕ → ℚ) (n : ℕ) : List ℕ :=
  List.insertionSort (fun a b => d b ≤ d a) (List.range n)

/-- CPU sorting step of `SortComputePass.sort` (SortComputePass.ts:259-278):
branch selected by element count.  Only slots `[0, numSplats)` of the index
array are initialised, sorted and uploaded (SortComputePass.ts:252-254 and
281-284), so the produced permutation has exactly `n` entries. -/
def sortIndices (d : ℕ → ℚ) (n : ℕ) : List ℕ :=
  if n < 1000 then insertionSortBranch d n else arraySortBranch d n

/-- Strict "descending key, ascending original index on ties" order.  A list
of indices pairwise ordered by `LexDesc d` is exactly a stable descending
sort of identity-ordered input. -/
def LexDesc (d : ℕ → ℚ) (a b : ℕ) : Prop :=
  d b < d a ∨ (d a = d b ∧ a < b)

/-! ### Real-number vector and matrix types

GPU-side floating-point values are modelled as real numbers.  Components are
named `x`/`y`/`z`/`w` as in the source's TSL vectors. -/

structure Vec2 where
  x : ℝ
  y : ℝ

structure Vec3 where
  x : ℝ
  y : ℝ
  z : ℝ

structure Vec4 where
  x : ℝ
  y : ℝ
  z : ℝ
  w : ℝ

noncomputable section

def v3add (a b : Vec3) : Vec3 := ⟨a.x + b.x, a.y + b.y, a.z + b.z⟩

def v3sub (a b : Vec3) : Vec3 := ⟨a.x - b.x, a.y - b.y, a.z - b.z⟩

def v3scale (s : ℝ) (v : Vec3) : Vec3 := ⟨s * v.x, s * v.y, s * v.z⟩

def v3dot (a b : Vec3) : ℝ := a.x * b.x + a.y * b.y + a.z * b.z

def v3cross (a b : Vec3) : Vec3 :=
  ⟨a.y * b.z - a.z * b.y, a.z * b.x - a.x * b.z, a.x * b.y - a.y * b.x⟩

/-- Row-major 4×4 matrix; `m02` is row 0, column 2.  The TSL expression
`projMatrix.element(c).element(r)` reads column `c`, row `r`, i.e. `mRC`
here. -/
structure Mat4 where
  m00 : ℝ
  m01 : ℝ
  m02 : ℝ
  m03 : ℝ
  m10 : ℝ
  m11 : ℝ
  m12 : ℝ
  m13 : ℝ
  m20 : ℝ
  m21 : ℝ
  m22 : ℝ
  m23 : ℝ
  m30 : ℝ
  m31 : ℝ
  m32 : ℝ
  m33 : ℝ

def mat4MulVec (M : Mat4) (v : Vec4) : Vec4 :=
  ⟨M.m00 * v.x + M.m01 * v.y + M.m02 * v.z + M.m03 * v.w,
   M.m10 * v.x + M.m11 * v.y + M.m12 * v.z + M.m13 * v.w,
   M.m20 * v.x + M.m21 * v.y + M.m22 * v.z + M.m23 * v.w,
   M.m30 * v.x + M.m31 * v.y + M.m32 * v.z + M.m33 * v.w⟩

/-! ### TSL helper functions (`src/webgpu/tslHelpers.ts`) -/

/-- Rotate vector `v` by quaternion `q` (tslHelpers.ts:77-83). -/
def quatVec (q : Vec4) (v : Vec3) : Vec3 :=
  let qxyz : Vec3 := ⟨q.x, q.y, q.z⟩
  let t := v3scale 2 (v3cross qxyz v)
  v3add v (v3add (v3scale q.w t) (v3cross qxyz t))

/-- Quaternion composition, `q1` after `q2` (tslHelpers.ts:89-108). -/
def quatQuat (q1 q2 : Vec4) : Vec4 :=
  ⟨q1.w * q2.x + q1.x * q2.w + q1.y * q2.z - q1.z * q2.y,
   q1.w * q2.y - q1.x * q2.z + q1.y * q2.w + q1.z * q2.x,
   q1.w * q2.z + q1.x * q2.y - q1.y * q2.x + q1.z * q2.w,
   q1.w * q2.w - q1.x * q2.x - q1.y * q2.y - q1.z * q2.z⟩

/-- The 3×3 scale-rotation matrix `RS` (column-major naming `mColRow` as in
the source comment). -/
structure Mat3 where
  m00 : ℝ
  m01 : ℝ
  m02 : ℝ
  m10 : ℝ
  m11 : ℝ
  m12 : ℝ
  m20 : ℝ
  m21 : ℝ
  m22 : ℝ

/-- Build the scale-rotation matrix from scales and a quaternion
(tslHelpers.ts:229-273): a standard rotation matrix with each column
pre-scaled by the corresponding scale component. -/
def scaleQuaternionToMatrix (s : Vec3) (q : Vec4) : Mat3 :=
  ⟨s.x * (1 - 2 * (q.y * q.y + q.z * q.z)),
   s.x * (2 * (q.x * q.y + q.w * q.z)),
   s.x * (2 * (q.x * q.z - q.w * q.y)),
   s.y * (2 * (q.x * q.y - q.w * q.z)),
   s.y * (1 - 2 * (q.x * q.x + q.z * q.z)),
   s.y * (2 * (q.y * q.z + q.w * q.x)),
   s.z * (2 * (q.x * q.z + q.w * q.y)),
   s.z * (2 * (q.y * q.z - q.w * q.x)),
   s.z * (1 - 2 * (q.x * q.x + q.y * q.y))⟩

/-- The six unique entries of the symmetric 3D covariance. -/
structure Cov3D where
  c00 : ℝ
  c01 : ℝ
  c02 : ℝ
  c11 : ℝ
  c12 : ℝ
  c22 : ℝ

/-- Covariance `RS · RSᵀ` (tslHelpers.ts:281-327). -/
def computeCov3D (RS : Mat3) : Cov3D :=
  ⟨RS.m00 * RS.m00 + RS.m10 * RS.m10 + RS.m20 * RS.m20,
   RS.m00 * RS.m01 + RS.m10 * RS.m11 + RS.m20 * RS.m21,
   RS.m00 * RS.m02 + RS.m10 * RS.m12 + RS.m20 * RS.m22,
   RS.m01 * RS.m01 + RS.m11 * RS.m11 + RS.m21 * RS.m21,
   RS.m01 * RS.m02 + RS.m11 * RS.m12 + RS.m21 * RS.m22,
   RS.m02 * RS.m02 + RS.m12 * RS.m12 + RS.m22 * RS.m22⟩

/-- The 2D covariance `[[a, b], [b, d]]`. -/
structure Cov2D where
  a : ℝ
  b : ℝ
  d : ℝ

/-- Project the 3D covariance to 2D (tslHelpers.ts:338-394): orthographic
path takes the XY block scaled by focal squared; perspective path propagates
through the first-order Jacobian of perspective division. -/
def projectCov3DTo2D (viewCenter : Vec3) (cov3D : Cov3D) (focal : Vec2)
    (isOrthographic : Bool) : Cov2D :=
  if isOrthographic then
    ⟨cov3D.c00 * (focal.x * focal.x),
     cov3D.c01 * (focal.x * focal.y),
     cov3D.c11 * (focal.y * focal.y)⟩
  else
    let invZ := 1 / viewCenter.z
    let invZ2 := invZ * invZ
    let J00 := focal.x * invZ
    let J02 := -focal.x * (viewCenter.x * invZ2)
    let J11 := focal.y * invZ
    let J12 := -focal.y * (viewCenter.y * invZ2)
    ⟨J00 * J00 * cov3D.c00 + 2 * (J00 * J02) * cov3D.c02 + J02 * J02 * cov3D.c22,
     J00 * J11 * cov3D.c01 + J00 * J12 * cov3D.c02 + J02 * J11 * cov3D.c12 +
       J02 * J12 * cov3D.c22,
     J11 * J11 * cov3D.c11 + 2 * (J11 * J12) * cov3D.c12 + J12 * J12 * cov3D.c22⟩

/-- Result of the closed-form symmetric 2×2 eigendecomposition. -/
structure Eigen2D where
  eigen1 : ℝ
  eigen2 : ℝ
  eigenVec1 : Vec2
  eigenVec2 : Vec2

/-- GPU `normalize` on a 2-vector: the vector divided by its Euclidean
length. -/
def normalize2 (v : Vec2) : Vec2 :=
  let n := Real.sqrt (v.x * v.x + v.y * v.y)
  ⟨v.x / n, v.y / n⟩

open Classical in
/-- Closed-form eigendecomposition of `[[a, b], [b, d]]`
(tslHelpers.ts:400-430). -/
def eigenDecompose2x2 (a b d : ℝ) : Eigen2D :=
  let eigenAvg := 0.5 * (a + d)
  let det := a * d - b * b
  let eigenDelta := Real.sqrt (max 0 (eigenAvg * eigenAvg - det))
  let eigen1 := eigenAvg + eigenDelta
  let eigen2 := eigenAvg - eigenDelta
  let bSmall := |b| < 0.001
  let evx := if bSmall then (1 : ℝ) else b
  let evy := if bSmall then (0 : ℝ) else eigen1 - a
  let eigenVec1 := normalize2 ⟨evx, evy⟩
  ⟨eigen1, eigen2, eigenVec1, ⟨eigenVec1.y, -eigenVec1.x⟩⟩

/-! ### SplatCodec scale decoding (`unpackSplatEncoding`, tslHelpers.ts:191-213) -/

/-- Quantized scale field X: `word3 & 0xff`. -/
def uScaleX (word3 : ℕ) : ℕ := word3 &&& 0xff

/-- Quantized scale field Y: `(word3 >> 8) & 0xff`. -/
def uScaleY (word3 : ℕ) : ℕ := (word3 >>> 8) &&& 0xff

/-- Quantized scale field Z: `(word3 >> 16) & 0xff`. -/
def uScaleZ (word3 : ℕ) : ℕ := (word3 >>> 16) &&& 0xff

/-- Log-scale quantization step `(lnScaleMax - lnScaleMin) / 254`
(tslHelpers.ts:198). -/
def lnScaleScale (lnScaleMin lnScaleMax : ℝ) : ℝ := (lnScaleMax - lnScaleMin) / 254

/-- Scale decode (tslHelpers.ts:201-207): quantized value `0` is a sentinel
for exact zero scale; other values decode exponentially. -/
def decodeScale (lnScaleMin lnScaleMax : ℝ) (uScale : ℕ) : ℝ :=
  if uScale = 0 then 0
  else Real.exp (lnScaleMin + ((uScale : ℝ) - 1) * lnScaleScale lnScaleMin lnScaleMax)

/-- The three decoded scales of `unpackSplatEncoding` (tslHelpers.ts:192-213). -/
def unpackScales (word3 : ℕ) (lnScaleMin lnScaleMax : ℝ) : Vec3 :=
  ⟨decodeScale lnScaleMin lnScaleMax (uScaleX word3),
   decodeScale lnScaleMin lnScaleMax (uScaleY word3),
   decodeScale lnScaleMin lnScaleMax (uScaleZ word3)⟩

/-! ### DistanceStage (`SortComputePass.buildDistanceComputeNode`,
SortComputePass.ts:157-209) -/

/-- Per-frame uniforms of the distance compute pass.  `sortRadial` models the
`sortRadial ? 1 : 0` uniform together with the in-kernel comparison
`sortRadial == 1`. -/
structure DistanceUniforms where
  numSplats : ℕ
  viewOrigin : Vec3
  viewDirection : Vec3
  sortRadial : Bool
  depthBias : ℝ

/-- Distance key written for splat index `i` (SortComputePass.ts:164-208).
`center i` is the decoded center of splat `i` (the kernel reads it from the
packed texture through `unpackSplatEncoding`; centers are abstracted here
since only their values enter the key).  Indices at or beyond `numSplats`
receive the fixed filler value `float(1e30)`. -/
def distanceKey (u : DistanceUniforms) (center : ℕ → Vec3) (i : ℕ) : ℝ :=
  let toSplat := v3sub (center i) u.viewOrigin
  let radialDist := Real.sqrt (v3dot toSplat toSplat)
  let depthDist := v3dot toSplat u.viewDirection + u.depthBias
  let computedDistance := if u.sortRadial then radialDist else depthDist
  if i < u.numSplats then computedDistance else 1e30

/-! ### ProjectionStage (`RenderComputePass.buildComputeNode`,
WebGPUSplatPipeline.ts:765-1005) -/

/-- Per-frame uniforms of the render compute pass
(WebGPUSplatPipeline.ts:717-733, updated in `update`, lines 1013-1034).
Note that the `isOrthographic` uniform is stored and updated every frame but
is never read inside the kernel. -/
structure RenderUniforms where
  numSplats : ℕ
  renderToViewQuat : Vec4
  renderToViewPos : Vec3
  projMatrix : Mat4
  renderSize : Vec2
  maxStdDev : ℝ
  minAlpha : ℝ
  minPixelRadius : ℝ
  maxPixelRadius : ℝ
  clipXY : ℝ
  focalAdjustment : ℝ
  blurAmount : ℝ
  preBlurAmount : ℝ
  isOrthographic : Bool

/-- One decoded splat record, as returned by `unpackSplatEncoding`
(tslHelpers.ts:158-223).  The kernel destructures exactly these four fields
(WebGPUSplatPipeline.ts:806-809). -/
structure Splat where
  center : Vec3
  scales : Vec3
  quaternion : Vec4
  rgba : Vec4

/-- View-space center (WebGPUSplatPipeline.ts:821-832). -/
def viewCenter (u : RenderUniforms) (s : Splat) : Vec3 :=
  v3add (quatVec u.renderToViewQuat s.center) u.renderToViewPos

/-- Clip-space center (WebGPUSplatPipeline.ts:838). -/
def clipCenter (u : RenderUniforms) (s : Splat) : Vec4 :=
  mat4MulVec u.projMatrix
    ⟨(viewCenter u s).x, (viewCenter u s).y, (viewCenter u s).z, 1⟩

open Classical in
/-- Division-guarded `w` (WebGPUSplatPipeline.ts:850-854). -/
def safeW (u : RenderUniforms) (s : Splat) : ℝ :=
  if (clipCenter u s).w = 0 then 1 else (clipCenter u s).w

/-- NDC center (WebGPUSplatPipeline.ts:855). -/
def ndcCenter (u : RenderUniforms) (s : Splat) : Vec3 :=
  ⟨(clipCenter u s).x / safeW u s, (clipCenter u s).y / safeW u s,
   (clipCenter u s).z / safeW u s⟩

/-- View-space splat quaternion (WebGPUSplatPipeline.ts:858). -/
def viewQuaternion (u : RenderUniforms) (s : Splat) : Vec4 :=
  quatQuat u.renderToViewQuat s.quaternion

/-- 3D covariance of the splat in view orientation
(WebGPUSplatPipeline.ts:861-862). -/
def splatCov3D (u : RenderUniforms) (s : Splat) : Cov3D :=
  computeCov3D (scaleQuaternionToMatrix s.scales (viewQuaternion u s))

/-- Focal lengths in pixels (WebGPUSplatPipeline.ts:865-877): half the
focal-adjusted render size times the projection matrix diagonal terms. -/
def focal (u : RenderUniforms) : Vec2 :=
  ⟨0.5 * (u.renderSize.x * u.focalAdjustment) * u.projMatrix.m00,
   0.5 * (u.renderSize.y * u.focalAdjustment) * u.projMatrix.m11⟩

/-- Projected 2D covariance as computed by the kernel
(WebGPUSplatPipeline.ts:880): the call site passes the literal `false` for
`isOrthographic`, so the perspective Jacobian path is always taken. -/
def splatCov2D (u : RenderUniforms) (s : Splat) : Cov2D :=
  projectCov3DTo2D (viewCenter u s) (splatCov3D u s) (focal u) false

/-- Pre-blurred `a` entry (WebGPUSplatPipeline.ts:883). -/
def covA (u : RenderUniforms) (s : Splat) : ℝ := (splatCov2D u s).a + u.preBlurAmount

/-- Off-diagonal entry `b` (WebGPUSplatPipeline.ts:884). -/
def covB (u : RenderUniforms) (s : Splat) : ℝ := (splatCov2D u s).b

/-- Pre-blurred `d` entry (WebGPUSplatPipeline.ts:885). -/
def covD (u : RenderUniforms) (s : Splat) : ℝ := (splatCov2D u s).d + u.preBlurAmount

/-- Determinant before the anti-aliasing blur (WebGPUSplatPipeline.ts:888). -/
def detOrig (u : RenderUniforms) (s : Splat) : ℝ :=
  covA u s * covD u s - covB u s * covB u s

/-- Blurred `a` entry (WebGPUSplatPipeline.ts:889). -/
def covABlur (u : RenderUniforms) (s : Splat) : ℝ := covA u s + u.blurAmount

/-- Blurred `d` entry (WebGPUSplatPipeline.ts:890). -/
def covDBlur (u : RenderUniforms) (s : Splat) : ℝ := covD u s + u.blurAmount

/-- Determinant after the anti-aliasing blur (WebGPUSplatPipeline.ts:891). -/
def detBlur (u : RenderUniforms) (s : Splat) : ℝ :=
  covABlur u s * covDBlur u s - covB u s * covB u s

/-- Anti-aliasing alpha correction (WebGPUSplatPipeline.ts:894-895). -/
def blurAdjust (u : RenderUniforms) (s : Splat) : ℝ :=
  Real.sqrt (max 0 (detOrig u s / max 1e-10 (detBlur u s)))

/-- Alpha after anti-aliasing correction (WebGPUSplatPipeline.ts:896). -/
def finalAlpha (u : RenderUniforms) (s : Splat) : ℝ := s.rgba.w * blurAdjust u s

/-- Eigendecomposition of the blurred 2D covariance
(WebGPUSplatPipeline.ts:902-906). -/
def splatEigen (u : RenderUniforms) (s : Splat) : Eigen2D :=
  eigenDecompose2x2 (covABlur u s) (covB u s) (covDBlur u s)

/-- First pixel radius (WebGPUSplatPipeline.ts:909-912). -/
def scale1 (u : RenderUniforms) (s : Splat) : ℝ :=
  min u.maxPixelRadius (u.maxStdDev * Real.sqrt (max 0 (splatEigen u s).eigen1))

/-- Second pixel radius (WebGPUSplatPipeline.ts:913-916). -/
def scale2 (u : RenderUniforms) (s : Splat) : ℝ :=
  min u.maxPixelRadius (u.maxStdDev * Real.sqrt (max 0 (splatEigen u s).eigen2))

/-- Validity gate: splat index within the active range
(WebGPUSplatPipeline.ts:784). -/
def withinRange (u : RenderUniforms) (i : ℕ) : Prop := i < u.numSplats

/-- Validity gate: decoded alpha at least `minAlpha`
(WebGPUSplatPipeline.ts:812). -/
def alphaValid (u : RenderUniforms) (s : Splat) : Prop := s.rgba.w ≥ u.minAlpha

/-- Validity gate: some axis has nonzero scale
(WebGPUSplatPipeline.ts:815-818). -/
def hasNonZeroScale (s : Splat) : Prop :=
  s.scales.x > 0 ∨ s.scales.y > 0 ∨ s.scales.z > 0

/-- Validity gate: view-space center in front of the camera
(WebGPUSplatPipeline.ts:835). -/
def inFrontOfCamera (u : RenderUniforms) (s : Splat) : Prop :=
  (viewCenter u s).z < 0

/-- Validity gate: near/far plane check (WebGPUSplatPipeline.ts:841). -/
def withinDepthRange (u : RenderUniforms) (s : Splat) : Prop :=
  |(clipCenter u s).z| < (clipCenter u s).w

/-- Validity gate: XY frustum check with slack factor
(WebGPUSplatPipeline.ts:844-847). -/
def withinXYFrustum (u : RenderUniforms) (s : Splat) : Prop :=
  |(clipCenter u s).x| ≤ u.clipXY * (clipCenter u s).w ∧
  |(clipCenter u s).y| ≤ u.clipXY * (clipCenter u s).w

/-- Validity gate: alpha after anti-aliasing correction still at least
`minAlpha` (WebGPUSplatPipeline.ts:899). -/
def finalAlphaValid (u : RenderUniforms) (s : Splat) : Prop :=
  finalAlpha u s ≥ u.minAlpha

/-- Validity gate: at least one pixel radius reaches `minPixelRadius`
(WebGPUSplatPipeline.ts:919-921). -/
def hasMinRadius (u : RenderUniforms) (s : Splat) : Prop :=
  scale1 u s ≥ u.minPixelRadius ∨ scale2 u s ≥ u.minPixelRadius

/-- Combined validity flag (WebGPUSplatPipeline.ts:924-931). -/
def isValid (u : RenderUniforms) (s : Splat) (i : ℕ) : Prop :=
  withinRange u i ∧ alphaValid u s ∧ hasNonZeroScale s ∧ inFrontOfCamera u s ∧
  withinDepthRange u s ∧ withinXYFrustum u s ∧ finalAlphaValid u s ∧
  hasMinRadius u s

/-- One emitted vertex: NDC position, RGBA color and local UV. -/
structure Vertex where
  pos : Vec3
  color : Vec4
  uv : Vec2

/-- Degenerate quad position sentinel (WebGPUSplatPipeline.ts:779): NDC `z`
of `2.0` lies outside the clip range, collapsing/clipping the quad. -/
def degeneratePos : Vec3 := ⟨0, 0, 2⟩

/-- Degenerate color sentinel (WebGPUSplatPipeline.ts:780): zero alpha. -/
def degenerateColor : Vec4 := ⟨0, 0, 0, 0⟩

/-- Degenerate UV sentinel (WebGPUSplatPipeline.ts:781). -/
def degenerateUv : Vec2 := ⟨0, 0⟩

/-- The fixed degenerate vertex written for invalid splats. -/
def degenerateVertex : Vertex := ⟨degeneratePos, degenerateColor, degenerateUv⟩

/-- Quad corner NDC position (WebGPUSplatPipeline.ts:941-952): corner offset
along the two eigenvectors scaled by the pixel radii, converted from pixels
to NDC by `2 / scaledRenderSize`. -/
def cornerPos (u : RenderUniforms) (s : Splat) (cx cy : ℝ) : Vec3 :=
  let e := splatEigen u s
  let px := cx * e.eigenVec1.x * scale1 u s + cy * e.eigenVec2.x * scale2 u s
  let py := cx * e.eigenVec1.y * scale1 u s + cy * e.eigenVec2.y * scale2 u s
  ⟨(ndcCenter u s).x + 2 / (u.renderSize.x * u.focalAdjustment) * px,
   (ndcCenter u s).y + 2 / (u.renderSize.y * u.focalAdjustment) * py,
   (ndcCenter u s).z⟩

/-- Vertex emitted for a valid splat at a given corner
(WebGPUSplatPipeline.ts:934-957): corner position, final color
`(rgb, finalAlpha)`, and UV `corner * maxStdDev`. -/
def validVertex (u : RenderUniforms) (s : Splat) (cx cy : ℝ) : Vertex :=
  ⟨cornerPos u s cx cy, ⟨s.rgba.x, s.rgba.y, s.rgba.z, finalAlpha u s⟩,
   ⟨cx * u.maxStdDev, cy * u.maxStdDev⟩⟩

open Classical in
/-- The `select(isValid, …, degenerate…)` writes for one corner
(WebGPUSplatPipeline.ts:959-965 and analogous). -/
def emitVertex (u : RenderUniforms) (s : Splat) (i : ℕ) (cx cy : ℝ) : Vertex :=
  if isValid u s i then validVertex u s cx cy else degenerateVertex

/-- The four vertices emitted for splat `i`, at corner offsets
`(-1,-1), (1,-1), (1,1), (-1,1)` (WebGPUSplatPipeline.ts:954-1004). -/
def quadVertices (u : RenderUniforms) (s : Splat) (i : ℕ) :
    Vertex × Vertex × Vertex × Vertex :=
  (emitVertex u s i (-1) (-1), emitVertex u s i 1 (-1),
   emitVertex u s i 1 1, emitVertex u s i (-1) 1)

/-! ### Orchestrator draw range (`RenderComputePass.update`,
WebGPUSplatPipeline.ts:1011-1048) -/

/-- Index count of the draw range set by `RenderComputePass.update`
(WebGPUSplatPipeline.ts:1047): `setDrawRange(0, numSplats * 6)`. -/
def drawRangeCount (numSplats : ℕ) : ℕ := numSplats * 6

open Classical in
/-- Spec-side definition, following the spec's words: `validCount` is the
number of splats that pass all validity gates.  No such counter exists in
the source; this definition exists only to compare the spec's claimed draw
range `[0, validCount*6)` against the code's actual draw range. -/
def specValidCount (u : RenderUniforms) (splats : ℕ → Splat) : ℕ :=
  ((List.range u.numSplats).filter (fun i => decide (isValid u (splats i) i))).length

/-! ### Concrete frame parameters and splats used to evaluate the
definitions on explicit inputs -/

/-- Key array from the spec's radial-distance scenario: distances
`1.0, 5.0, 3.0`. -/
def sortKeysW : ℕ → ℚ := fun k => ([1, 5, 3] : List ℚ).getD k 0

/-- Constant (all-ties) key array. -/
def zeroKeysW : ℕ → ℚ := fun _ => 0

/-- Perspective-style projection matrix (rows): diagonal focal terms 1,
third row `(0,0,-1,-0.1)`, fourth row `(0,0,-1,0)`. -/
def projW : Mat4 := ⟨1, 0, 0, 0, 0, 1, 0, 0, 0, 0, -1, -0.1, 0, 0, -1, 0⟩

/-- Frame parameters with `minPixelRadius = 5`, `maxPixelRadius = 100`,
`maxStdDev = 1`, no blur, identity view transform, render size 4×4. -/
def uRadiusW : RenderUniforms :=
  ⟨1, ⟨0, 0, 0, 1⟩, ⟨0, 0, 0⟩, projW, ⟨4, 4⟩, 1, 0, 5, 100, 1.2, 1, 0, 0, false⟩

/-- Anisotropic splat two units in front of the camera: scales `(8,1,1)`,
identity orientation, opaque white. -/
def sRadiusW : Splat := ⟨⟨0, 0, -2⟩, ⟨8, 1, 1⟩, ⟨0, 0, 0, 1⟩, ⟨1, 1, 1, 1⟩⟩

/-- Frame parameters with `maxStdDev = 0`, `minPixelRadius = 0`,
`maxPixelRadius = 1`. -/
def uFlatW : RenderUniforms :=
  ⟨1, ⟨0, 0, 0, 1⟩, ⟨0, 0, 0⟩, projW, ⟨4, 4⟩, 0, 0, 0, 1, 1.2, 1, 0, 0, false⟩

/-- Frame parameters declaring an orthographic projection
(`isOrthographic = true`), render size 2×2, identity view transform. -/
def uOrthoW : RenderUniforms :=
  ⟨1, ⟨0, 0, 0, 1⟩, ⟨0, 0, 0⟩, projW, ⟨2, 2⟩, 1, 0, 0, 100, 1.2, 1, 0, 0, true⟩

/-- Isotropic unit splat two units in front of the camera. -/
def sOrthoW : Splat := ⟨⟨0, 0, -2⟩, ⟨1, 1, 1⟩, ⟨0, 0, 0, 1⟩, ⟨1, 1, 1, 1⟩⟩

/-- Frame parameters with `minAlpha = 1` and one active splat. -/
def uInvalidW : RenderUniforms :=
  ⟨1, ⟨0, 0, 0, 1⟩, ⟨0, 0, 0⟩, projW, ⟨4, 4⟩, 1, 1, 0, 100, 1.2, 1, 0, 0, false⟩

/-- Fully transparent splat (`rgba.w = 0`), rejected by the `alphaValid`
gate whenever `minAlpha > 0`. -/
def sInvalidW : Splat := ⟨⟨0, 0, -2⟩, ⟨1, 1, 1⟩, ⟨0, 0, 0, 1⟩, ⟨1, 1, 1, 0⟩⟩

/-- Distance-stage uniforms: one active splat, depth sort with a depth bias
of `2e30` (the decoded center and the frame parameters may both be large,
so computed keys above `1e30` are reachable). -/
def uDistW : DistanceUniforms := ⟨1, ⟨0, 0, 0⟩, ⟨0, 0, 1⟩, false, 2e30⟩

/-- Decoded splat centers, all at the origin. -/
def centerW : ℕ → Vec3 := fun _ => ⟨0, 0, 0⟩

/-- Frame parameters with no active splats (`numSplats = 0`). -/
def uEmptyW : RenderUniforms :=
  ⟨0, ⟨0, 0, 0, 1⟩, ⟨0, 0, 0⟩, projW, ⟨4, 4⟩, 1, 1, 0, 100, 1.2, 1, 0, 0, false⟩

/-- Splat source consisting of copies of the transparent splat. -/
def splatsW : ℕ → Splat := fun _ => sInvalidW

end

theorem LexDesc.key_le {d : ℕ → ℚ} {a b : ℕ} (h : LexDesc d a b) : d b ≤ d a := by
  rcases h with h | ⟨h, _⟩
  · exact le_of_lt h
  · exact le_of_eq h.symm

theorem insertRev_perm (d : ℕ → ℚ) (x : ℕ) :
    ∀ l : List ℕ, List.Perm (insertRev d x l) (x :: l) := by
  intro l
  induction l with
  | nil => simp [insertRev]
  | cons y ys ih =>
    by_cases h : d y < d x
    · simp only [insertRev, if_pos h]
      exact ((ih.cons y).trans (List.Perm.swap x y ys))
    · simp [insertRev, if_neg h]

theorem mem_insertRev {d : ℕ → ℚ} {x a : ℕ} {l : List ℕ}
    (h : a ∈ insertRev d x l) : a = x ∨ a ∈ l := by
  have := (insertRev_perm d x l).mem_iff.mp h
  simpa using this

theorem insertRev_pairwise {d : ℕ → ℚ} {x : ℕ} {l : List ℕ}
    (hl : l.Pairwise (fun a b => LexDesc d b a))
    (hx : ∀ y ∈ l, y < x) :
    (insertRev d x l).Pairwise (fun a b => LexDesc d b a) := by
  induction l with
  | nil => simp [insertRev]
  | cons y ys ih =>
    have hy : y < x := hx y (List.mem_cons_self y ys)
    have hys : ∀ z ∈ ys, z < x := fun z hz => hx z (List.mem_cons_of_mem y hz)
    rcases List.pairwise_cons.mp hl with ⟨hyrel, hyspw⟩
    by_cases h : d y < d x
    · simp only [insertRev, if_pos h]
      refine List.pairwise_cons.mpr ⟨?_, ih hyspw hys⟩
      intro z hz
      rcases mem_insertRev hz with rfl | hz'
      · exact Or.inl h
      · exact hyrel z hz'
    · have hle : d x ≤ d y := le_of_not_lt h
      simp only [insertRev, if_neg h]
      refine List.pairwise_cons.mpr ⟨?_, hl⟩
      intro z hz
      rcases List.mem_cons.mp hz with rfl | hz'
      · rcases lt_or_eq_of_le hle with hlt | heq
        · exact Or.inl hlt
        · exact Or.inr ⟨heq.symm, hy⟩
      · have hzy : LexDesc d z y := hyrel z hz'
        rcases hzy with hlt | ⟨heq, hlt'⟩
        · exact Or.inl (lt_of_le_of_lt hle hlt)
        · rcases lt_or_eq_of_le hle with hlt2 | heq2
          · exact Or.inl (by rw [heq]; exact hlt2)
          · exact Or.inr ⟨heq.trans heq2.symm, hys z hz'⟩

theorem insertionPass_perm (d : ℕ → ℚ) :
    ∀ (xs acc : List ℕ), List.Perm (insertionPass d acc xs) (acc ++ xs) := by
  intro xs
  induction xs with
  | nil => intro acc; simp [insertionPass, List.reverse_perm]
  | cons x xs ih =>
    intro acc
    have h1 : List.Perm (insertionPass d (insertRev d x acc) xs)
        (insertRev d x acc ++ xs) := ih _
    have h2 : List.Perm (insertRev d x acc ++ xs) ((x :: acc) ++ xs) :=
      (insertRev_perm d x acc).append_right xs
    have h3 : List.Perm ((x :: acc) ++ xs) (acc ++ x :: xs) := by
      simpa using (@List.perm_middle ℕ x acc xs).symm
    exact (h1.trans h2).trans h3

theorem insertionPass_pairwise (d : ℕ → ℚ) :
    ∀ (xs acc : List ℕ),
      acc.Pairwise (fun a b => LexDesc d b a) →
      (∀ a ∈ acc, ∀ x ∈ xs, a < x) →
      xs.Pairwise (· < ·) →
      (insertionPass d acc xs).Pairwise (LexDesc d) := by
  intro xs
  induction xs with
  | nil =>
    intro acc hacc _ _
    simpa [insertionPass, List.pairwise_reverse] using hacc
  | cons x xs ih =>
    intro acc hacc hsep hxs
    rcases List.pairwise_cons.mp hxs with ⟨hxrel, hxspw⟩
    refine ih (insertRev d x acc) ?_ ?_ hxspw
    · exact insertRev_pairwise hacc (fun y hy => hsep y hy x (List.mem_cons_self x xs))
    · intro a ha z hz
      rcases mem_insertRev ha with rfl | ha'
      · exact hxrel z hz
      · exact hsep a ha' z (List.mem_cons_of_mem x hz)

theorem insertionSortBranch_perm (d : ℕ → ℚ) (n : ℕ) :
    List.Perm (insertionSortBranch d n) (List.range n) := by
  simpa using insertionPass_perm d (List.range n) []

theorem insertionSortBranch_pairwise (d : ℕ → ℚ) (n : ℕ) :
    (insertionSortBranch d n).Pairwise (LexDesc d) := by
  refine insertionPass_pairwise d (List.range n) [] ?_ ?_ ?_
  · exact List.Pairwise.nil
  · intro a ha; cases ha
  · exact List.pairwise_lt_range n

theorem orderedInsert_pairwise_lex {d : ℕ → ℚ} {x : ℕ} {l : List ℕ}
    (hl : l.Pairwise (LexDesc d)) (hx : ∀ y ∈ l, x < y) :
    (List.orderedInsert (fun a b => d b ≤ d a) x l).Pairwise (LexDesc d) := by
  induction l with
  | nil => simp [List.orderedInsert]
  | cons y ys ih =>
    rcases List.pairwise_cons.mp hl with ⟨hyrel, hyspw⟩
    by_cases h : d y ≤ d x
    · simp only [List.orderedInsert, if_pos h]
      refine List.pairwise_cons.mpr ⟨?_, hl⟩
      intro z hz
      rcases List.mem_cons.mp hz with rfl | hz'
      · rcases lt_or_eq_of_le h with hlt | heq
        · exact Or.inl hlt
        · exact Or.inr ⟨heq.symm, hx z (List.mem_cons_self z ys)⟩
      · rcases hyrel z hz' with hlt | ⟨heq, _⟩
        · exact Or.inl (lt_of_lt_of_le hlt h)
        · rcases lt_or_eq_of_le h with hlt2 | heq2
          · exact Or.inl (by rw [← heq]; exact hlt2)
          · exact Or.inr ⟨heq2.symm.trans heq, hx z (List.mem_cons_of_mem y hz')⟩
    · simp only [List.orderedInsert, if_neg h]
      refine List.pairwise_cons.mpr
        ⟨?_, ih hyspw (fun z hz => hx z (List.mem_cons_of_mem y hz))⟩
      intro z hz
      rcases (List.mem_orderedInsert _).mp hz with rfl | hz'
      · exact Or.inl (lt_of_not_ge h)
      · exact hyrel z hz'

theorem insertionSort_pairwise_lex (d : ℕ → ℚ) :
    ∀ l : List ℕ, l.Pairwise (· < ·) →
      (List.insertionSort (fun a b => d b ≤ d a) l).Pairwise (LexDesc d) := by
  intro l
  induction l with
  | nil => intro _; simp [List.insertionSort]
  | cons x xs ih =>
    intro hl
    rcases List.pairwise_cons.mp hl with ⟨hxrel, hxspw⟩
    simp only [List.insertionSort]
    refine orderedInsert_pairwise_lex (ih hxspw) ?_
    intro y hy
    exact hxrel y ((List.mem_insertionSort _).mp hy)

theorem arraySortBranch_perm (d : ℕ → ℚ) (n : ℕ) :
    List.Perm (arraySortBranch d n) (List.range n) :=
  List.perm_insertionSort _ _

theorem arraySortBranch_pairwise (d : ℕ → ℚ) (n : ℕ) :
    (arraySortBranch d n).Pairwise (LexDesc d) :=
  insertionSort_pairwise_lex d _ (List.pairwise_lt_range n)

theorem lexDesc_antisymm (d : ℕ → ℚ) : IsAntisymm ℕ (LexDesc d) := by
  constructor
  intro a b hab hba
  rcases hab with h1 | ⟨h1, h1'⟩ <;> rcases hba with h2 | ⟨h2, h2'⟩
  · exact absurd h2 (lt_asymm h1)
  · exact absurd h1 (by rw [h2]; exact lt_irrefl _)
  · exact absurd h2 (by rw [h1]; exact lt_irrefl _)
  · exact absurd h2' (lt_asymm h1')

/-- Either CPU branch of `SortComputePass.sort` produces the same
permutation: both are stable descending sorts of the identity-initialised
index array, and the stable descending permutation is unique. -/
theorem insertionSortBranch_eq_arraySortBranch (d : ℕ → ℚ) (n : ℕ) :
    insertionSortBranch d n = arraySortBranch d n := by
  haveI := lexDesc_antisymm d
  exact List.eq_of_perm_of_sorted
    ((insertionSortBranch_perm d n).trans (arraySortBranch_perm d n).symm)
    (insertionSortBranch_pairwise d n) (arraySortBranch_pairwise d n)

theorem sortIndices_eq_insertionSortBranch (d : ℕ → ℚ) (n : ℕ) :
    sortIndices d n = insertionSortBranch d n := by
  unfold sortIndices
  split
  · rfl
  · exact (insertionSortBranch_eq_arraySortBranch d n).symm

theorem sortIndices_perm (d : ℕ → ℚ) (n : ℕ) :
    List.Perm (sortIndices d n) (List.range n) := by
  rw [sortIndices_eq_insertionSortBranch]
  exact insertionSortBranch_perm d n

theorem sortIndices_pairwise (d : ℕ → ℚ) (n : ℕ) :
    (sortIndices d n).Pairwise (LexDesc d) := by
  rw [sortIndices_eq_insertionSortBranch]
  exact insertionSortBranch_pairwise d n

theorem insertionSortBranch_length (d : ℕ → ℚ) (n : ℕ) :
    (insertionSortBranch d n).length = n := by
  simpa using (insertionSortBranch_perm d n).length_eq

theorem arraySortBranch_length (d : ℕ → ℚ) (n : ℕ) :
    (arraySortBranch d n).length = n := by
  simpa using (arraySortBranch_perm d n).length_eq

theorem sortIndices_length (d : ℕ → ℚ) (n : ℕ) :
    (sortIndices d n).length = n := by
  simpa using (sortIndices_perm d n).length_eq

theorem mem_sortIndices_lt {d : ℕ → ℚ} {n j : ℕ} (hj : j ∈ sortIndices d n) :
    j < n :=
  List.mem_range.mp ((sortIndices_perm d n).mem_iff.mp hj)

theorem pairwise_getD {R : ℕ → ℕ → Prop} {l : List ℕ} (h : l.Pairwise R)
    {i j : ℕ} (hij : i < j) (hj : j < l.length) :
    R (l.getD i 0) (l.getD j 0) := by
  have hi : i < l.length := lt_trans hij hj
  rw [List.getD_eq_getElem _ _ hi, List.getD_eq_getElem _ _ hj]
  exact List.pairwise_iff_getElem.mp h i j hi hj hij

/-- C1: for every key array `d` and all output positions `i < j < n`, the
permutation returned by the sort satisfies
`keys[permutation[i]] ≥ keys[permutation[j]]` (non-increasing,
back-to-front order), in the insertion-sort branch taken when `n < 1000`,
in the comparison-sort branch taken when `n ≥ 1000`, and therefore in
`sortIndices` whichever branch it dispatches to. -/
theorem sort_ordering_contract (d : ℕ → ℚ) (n i j : ℕ) (hij : i < j)
    (hjn : j < n) :
    d ((insertionSortBranch d n).getD j 0) ≤
        d ((insertionSortBranch d n).getD i 0) ∧
    d ((arraySortBranch d n).getD j 0) ≤ d ((arraySortBranch d n).getD i 0) ∧
    d ((sortIndices d n).getD j 0) ≤ d ((sortIndices d n).getD i 0) := by
  refine ⟨?_, ?_, ?_⟩
  · exact (pairwise_getD (insertionSortBranch_pairwise d n) hij
      (by rw [insertionSortBranch_length]; exact hjn)).key_le
  · exact (pairwise_getD (arraySortBranch_pairwise d n) hij
      (by rw [arraySortBranch_length]; exact hjn)).key_le
  · exact (pairwise_getD (sortIndices_pairwise d n) hij
      (by rw [sortIndices_length]; exact hjn)).key_le

/-- Witness for C1 at the spec's radial scenario keys `1.0, 5.0, 3.0` with
`n = 3` and positions `0 < 1`; the concrete permutation `[1, 2, 0]`
(distances `5, 3, 1`) is also evaluated. -/
theorem sort_ordering_contract_witness :
    (0 < 1 ∧ 1 < 3) ∧ insertionSortBranch sortKeysW 3 = [1, 2, 0] ∧
    (sortKeysW ((insertionSortBranch sortKeysW 3).getD 1 0) ≤
        sortKeysW ((insertionSortBranch sortKeysW 3).getD 0 0) ∧
      sortKeysW ((arraySortBranch sortKeysW 3).getD 1 0) ≤
        sortKeysW ((arraySortBranch sortKeysW 3).getD 0 0) ∧
      sortKeysW ((sortIndices sortKeysW 3).getD 1 0) ≤
        sortKeysW ((sortIndices sortKeysW 3).getD 0 0)) :=
  ⟨⟨by decide, by decide⟩, by decide,
    sort_ordering_contract sortKeysW 3 0 1 (by decide) (by decide)⟩

/-- C6: for every key array and every `n` — including `n = 0` and `n = 1` —
the output of the sort is a bijection on `[0, n)`: it has length `n` and
every index `i < n` appears exactly once; the `n = 0` and `n = 1` outputs
are evaluated explicitly. -/
theorem sort_permutation_law (d : ℕ → ℚ) (n i : ℕ) (hi : i < n) :
    (sortIndices d n).length = n ∧ (sortIndices d n).count i = 1 ∧
    sortIndices d 0 = [] ∧ sortIndices d 1 = [0] := by
  refine ⟨sortIndices_length d n, ?_, rfl, rfl⟩
  rw [(sortIndices_perm d n).count_eq]
  exact List.count_eq_one_of_mem (List.nodup_range n) (List.mem_range.mpr hi)

/-- Witness for C6 at the all-ties key array with `n = 2`, `i = 1`. -/
theorem sort_permutation_law_witness :
    1 < 2 ∧ ((sortIndices zeroKeysW 2).length = 2 ∧
      (sortIndices zeroKeysW 2).count 1 = 1 ∧
      sortIndices zeroKeysW 0 = [] ∧ sortIndices zeroKeysW 1 = [0]) :=
  ⟨by decide, sort_permutation_law zeroKeysW 2 1 (by decide)⟩

/-- C10: the sort is stable on ties and deterministic: at equal keys the
output preserves the original relative order (which is ascending index
order, since the input array is identity-initialised), and both branches
produce the identical permutation — so sorting the same keys twice through
either branch yields the same result. -/
theorem sort_stability (d : ℕ → ℚ) (n i j : ℕ) (hij : i < j) (hjn : j < n)
    (htie : d ((insertionSortBranch d n).getD i 0) =
      d ((insertionSortBranch d n).getD j 0)) :
    (insertionSortBranch d n).getD i 0 < (insertionSortBranch d n).getD j 0 ∧
    insertionSortBranch d n = arraySortBranch d n ∧
    sortIndices d n = insertionSortBranch d n := by
  refine ⟨?_, insertionSortBranch_eq_arraySortBranch d n,
    sortIndices_eq_insertionSortBranch d n⟩
  have h := pairwise_getD (insertionSortBranch_pairwise d n) hij
    (by rw [insertionSortBranch_length]; exact hjn)
  rcases h with h | ⟨_, h⟩
  · exact absurd htie (ne_of_gt h)
  · exact h

/-- Witness for C10 at the all-ties key array with `n = 3`, positions
`0 < 1 < 3`. -/
theorem sort_stability_witness :
    (0 < 1 ∧ 1 < 3 ∧ zeroKeysW ((insertionSortBranch zeroKeysW 3).getD 0 0) =
      zeroKeysW ((insertionSortBranch zeroKeysW 3).getD 1 0)) ∧
    ((insertionSortBranch zeroKeysW 3).getD 0 0 <
        (insertionSortBranch zeroKeysW 3).getD 1 0 ∧
      insertionSortBranch zeroKeysW 3 = arraySortBranch zeroKeysW 3 ∧
      sortIndices zeroKeysW 3 = insertionSortBranch zeroKeysW 3) :=
  ⟨⟨by decide, by decide, by decide⟩,
    sort_stability zeroKeysW 3 0 1 (by decide) (by decide) (by decide)⟩

/-- C4 amended: a padding index `i ≥ numSplats` receives the large finite
filler key `float(1e30)` — not `+∞` — and the CPU sort never places padding
indices in the output at all: only `[0, numSplats)` is initialised, sorted
and uploaded, so every member of the output permutation is an index `< n`.
-/
theorem distance_padding_filler (u : DistanceUniforms) (center : ℕ → Vec3)
    (i : ℕ) (hi : u.numSplats ≤ i) (d : ℕ → ℚ) (n j : ℕ)
    (hj : j ∈ sortIndices d n) :
    distanceKey u center i = 1e30 ∧ j < n := by
  refine ⟨?_, mem_sortIndices_lt hj⟩
  dsimp only [distanceKey]
  rw [if_neg (not_lt.mpr hi)]

/-- Witness for C4 (amended) at the concrete frame parameters `uDistW`
(one active splat), padding index `2`, and a one-element sort. -/
theorem distance_padding_filler_witness :
    (uDistW.numSplats ≤ 2 ∧ 0 ∈ sortIndices zeroKeysW 1) ∧
    (distanceKey uDistW centerW 2 = 1e30 ∧ 0 < 1) :=
  ⟨⟨by decide, by decide⟩,
    distance_padding_filler uDistW centerW 2 (by decide) zeroKeysW 1 0 (by decide)⟩

/-- C4 counterexample: the padding key is the finite value `1e30`, not
`+∞`.  At the explicit frame parameters `uDistW` (depth sort with
`depthBias = 2e30`) the valid splat `0` receives the key `2e30`, strictly
larger than the padding filler of index `1` — a finite sentinel that valid
keys can exceed, unlike `+∞`. -/
theorem distance_padding_filler_counterexample :
    distanceKey uDistW centerW 1 = 1e30 ∧
    distanceKey uDistW centerW 1 < distanceKey uDistW centerW 0 := by
  constructor
  · dsimp [distanceKey, uDistW]
  · dsimp [distanceKey, uDistW, centerW, v3sub, v3dot]
    norm_num

/-- C7: each 8-bit quantized scale field decodes the value `0` to exactly
`0.0`, and every value `v ∈ 1..255` to
`exp(lnScaleMin + (v-1)·(lnScaleMax-lnScaleMin)/254)`; a packed `word3` of
`0x00000000` decodes to scale `(0, 0, 0)` exactly. -/
theorem scale_decode_law (lnScaleMin lnScaleMax : ℝ) (v : ℕ)
    (hv1 : 1 ≤ v) (hv2 : v ≤ 255) :
    decodeScale lnScaleMin lnScaleMax 0 = 0 ∧
    decodeScale lnScaleMin lnScaleMax v =
      Real.exp (lnScaleMin + ((v : ℝ) - 1) * ((lnScaleMax - lnScaleMin) / 254)) ∧
    unpackScales 0 lnScaleMin lnScaleMax = ⟨0, 0, 0⟩ := by
  refine ⟨by simp [decodeScale], ?_, ?_⟩
  · have hne : v ≠ 0 := by omega
    simp [decodeScale, lnScaleScale, hne]
  · have hx : uScaleX 0 = 0 := rfl
    have hy : uScaleY 0 = 0 := rfl
    have hz : uScaleZ 0 = 0 := rfl
    simp [unpackScales, hx, hy, hz, decodeScale]

/-- Witness for C7 at `lnScaleMin = -12`, `lnScaleMax = 9` (the source's
default scale range) and quantized value `7`. -/
theorem scale_decode_law_witness :
    (1 ≤ 7 ∧ 7 ≤ 255) ∧
    (decodeScale (-12) 9 0 = 0 ∧
      decodeScale (-12) 9 7 = Real.exp (-12 + ((7 : ℝ) - 1) * ((9 - -12) / 254)) ∧
      unpackScales 0 (-12) 9 = ⟨0, 0, 0⟩) :=
  ⟨⟨by decide, by decide⟩, scale_decode_law (-12) 9 7 (by decide) (by decide)⟩

theorem normalize2_unit {v : Vec2} (hv : v.x ≠ 0 ∨ v.y ≠ 0) :
    (normalize2 v).x * (normalize2 v).x +
      (normalize2 v).y * (normalize2 v).y = 1 := by
  have hpos : 0 < v.x * v.x + v.y * v.y := by
    rcases hv with h | h
    · nlinarith [mul_self_pos.mpr h, mul_self_nonneg v.y]
    · nlinarith [mul_self_pos.mpr h, mul_self_nonneg v.x]
  have hsq : Real.sqrt (v.x * v.x + v.y * v.y) *
      Real.sqrt (v.x * v.x + v.y * v.y) = v.x * v.x + v.y * v.y :=
    Real.mul_self_sqrt (le_of_lt hpos)
  have hne : Real.sqrt (v.x * v.x + v.y * v.y) ≠ 0 :=
    ne_of_gt (Real.sqrt_pos.mpr hpos)
  dsimp only [normalize2]
  field_simp

/-- C9: for every symmetric 2×2 input `[[a, b], [b, d]]`, the closed-form
eigendecomposition returns `eigen1 ≥ eigen2`, and the two returned
eigenvectors are unit length and mutually orthogonal — including in the
`|b| < 0.001` fallback case where the unnormalized first eigenvector is
`(1, 0)`. -/
theorem eigen_ordering_orthonormal (a b d : ℝ) :
    (eigenDecompose2x2 a b d).eigen2 ≤ (eigenDecompose2x2 a b d).eigen1 ∧
    (eigenDecompose2x2 a b d).eigenVec1.x * (eigenDecompose2x2 a b d).eigenVec1.x +
      (eigenDecompose2x2 a b d).eigenVec1.y * (eigenDecompose2x2 a b d).eigenVec1.y = 1 ∧
    (eigenDecompose2x2 a b d).eigenVec2.x * (eigenDecompose2x2 a b d).eigenVec2.x +
      (eigenDecompose2x2 a b d).eigenVec2.y * (eigenDecompose2x2 a b d).eigenVec2.y = 1 ∧
    (eigenDecompose2x2 a b d).eigenVec1.x * (eigenDecompose2x2 a b d).eigenVec2.x +
      (eigenDecompose2x2 a b d).eigenVec1.y * (eigenDecompose2x2 a b d).eigenVec2.y = 0 := by
  have he1 : (eigenDecompose2x2 a b d).eigen1 =
      0.5 * (a + d) +
        Real.sqrt (max 0 (0.5 * (a + d) * (0.5 * (a + d)) - (a * d - b * b))) := rfl
  have he2 : (eigenDecompose2x2 a b d).eigen2 =
      0.5 * (a + d) -
        Real.sqrt (max 0 (0.5 * (a + d) * (0.5 * (a + d)) - (a * d - b * b))) := rfl
  have hv1 : (eigenDecompose2x2 a b d).eigenVec1 = normalize2
      ⟨if |b| < 0.001 then (1 : ℝ) else b,
       if |b| < 0.001 then (0 : ℝ) else (eigenDecompose2x2 a b d).eigen1 - a⟩ := rfl
  have hv2 : (eigenDecompose2x2 a b d).eigenVec2 =
      ⟨(eigenDecompose2x2 a b d).eigenVec1.y,
       -(eigenDecompose2x2 a b d).eigenVec1.x⟩ := rfl
  have hunit : (eigenDecompose2x2 a b d).eigenVec1.x *
      (eigenDecompose2x2 a b d).eigenVec1.x +
      (eigenDecompose2x2 a b d).eigenVec1.y *
      (eigenDecompose2x2 a b d).eigenVec1.y = 1 := by
    rw [hv1]
    apply normalize2_unit
    by_cases hb : |b| < (0.001 : ℝ)
    · left; simp [hb]
    · left
      simp only [if_neg hb]
      have : (0 : ℝ) < |b| :=
        lt_of_lt_of_le (by norm_num) (le_of_not_lt hb)
      exact abs_pos.mp this
  refine ⟨?_, hunit, ?_, ?_⟩
  · rw [he1, he2]
    have := Real.sqrt_nonneg
      (max 0 (0.5 * (a + d) * (0.5 * (a + d)) - (a * d - b * b)))
    linarith
  · rw [hv2]
    dsimp only
    nlinarith [hunit]
  · rw [hv2]
    dsimp only
    ring

/-- C8: for every splat whose combined validity flag is false — for example
zero scale on all axes, alpha below `minAlpha`, or center behind the camera
— all 4 emitted vertices equal the fixed degenerate sentinel: position
`(0, 0, 2)` whose NDC `z = 2` lies outside the clip range, zero-alpha color
`(0, 0, 0, 0)` and zero UV.  The emission is a total function of its inputs
(`select`-based, no branch can fail), so no error is raised. -/
theorem degenerate_quad_emission (u : RenderUniforms) (s : Splat) (i : ℕ)
    (h : ¬ isValid u s i ∨
      (s.scales.x ≤ 0 ∧ s.scales.y ≤ 0 ∧ s.scales.z ≤ 0) ∨
      s.rgba.w < u.minAlpha ∨ 0 ≤ (viewCenter u s).z) :
    quadVertices u s i =
      (degenerateVertex, degenerateVertex, degenerateVertex, degenerateVertex) := by
  have hinv : ¬ isValid u s i := by
    rcases h with h | ⟨hx, hy, hz⟩ | h | h
    · exact h
    · rintro ⟨-, -, hs, -⟩
      rcases hs with hs | hs | hs
      · exact absurd hs (not_lt.mpr hx)
      · exact absurd hs (not_lt.mpr hy)
      · exact absurd hs (not_lt.mpr hz)
    · rintro ⟨-, ha, -⟩
      exact absurd ha (not_le.mpr h)
    · rintro ⟨-, -, -, hf, -⟩
      exact absurd hf (not_lt.mpr h)
  simp [quadVertices, emitVertex, hinv]

/-- Witness for C8 at the explicit frame parameters `uInvalidW`
(`minAlpha = 1`) and the transparent splat `sInvalidW` (`rgba.w = 0`). -/
theorem degenerate_quad_emission_witness :
    sInvalidW.rgba.w < uInvalidW.minAlpha ∧
    quadVertices uInvalidW sInvalidW 0 =
      (degenerateVertex, degenerateVertex, degenerateVertex, degenerateVertex) :=
  ⟨by norm_num [sInvalidW, uInvalidW],
    degenerate_quad_emission uInvalidW sInvalidW 0
      (Or.inr (Or.inr (Or.inl (by norm_num [sInvalidW, uInvalidW]))))⟩

/-- C2 amended: each emitted pixel radius is clamped above by
`maxPixelRadius` (unconditionally, by the `min`), but there is no lower
clamp at `minPixelRadius`: `minPixelRadius` enters only through the
validity gate `hasMinRadius`, which requires merely the larger of the two
radii to reach it.  An individual emitted radius may lie strictly below
`minPixelRadius` (see the counterexample). -/
theorem pixel_radius_clamp (u : RenderUniforms) (s : Splat)
    (hmin : hasMinRadius u s) :
    scale1 u s ≤ u.maxPixelRadius ∧ scale2 u s ≤ u.maxPixelRadius ∧
    u.minPixelRadius ≤ max (scale1 u s) (scale2 u s) := by
  refine ⟨min_le_left _ _, min_le_left _ _, ?_⟩
  rcases hmin with h | h
  · exact le_trans h (le_max_left _ _)
  · exact le_trans h (le_max_right _ _)

/-- Witness for C2 (amended) at the explicit frame parameters `uFlatW`
(`maxStdDev = 0`, `minPixelRadius = 0`, `maxPixelRadius = 1`). -/
theorem pixel_radius_clamp_witness :
    hasMinRadius uFlatW sOrthoW ∧
    (scale1 uFlatW sOrthoW ≤ uFlatW.maxPixelRadius ∧
      scale2 uFlatW sOrthoW ≤ uFlatW.maxPixelRadius ∧
      uFlatW.minPixelRadius ≤ max (scale1 uFlatW sOrthoW) (scale2 uFlatW sOrthoW)) := by
  have hmin : hasMinRadius uFlatW sOrthoW := by
    left
    show scale1 uFlatW sOrthoW ≥ uFlatW.minPixelRadius
    simp only [scale1, uFlatW]
    norm_num
  exact ⟨hmin, pixel_radius_clamp uFlatW sOrthoW hmin⟩

/-- C2 counterexample: at the explicit frame parameters `uRadiusW`
(`minPixelRadius = 5`, `maxPixelRadius = 100`, `maxStdDev = 1`, no blur)
and the anisotropic splat `sRadiusW`, the splat passes every validity gate
— so its radii are emitted — yet the second emitted pixel radius is
`1 < 5 = minPixelRadius`.  Emitted radii are not clamped below by
`minPixelRadius`, refuting the claimed interval membership. -/
theorem pixel_radius_below_min :
    isValid uRadiusW sRadiusW 0 ∧
    scale2 uRadiusW sRadiusW < uRadiusW.minPixelRadius := by
  have hview : viewCenter uRadiusW sRadiusW = ⟨0, 0, -2⟩ := by
    simp only [viewCenter, quatVec, v3add, v3scale, v3cross, uRadiusW, sRadiusW]
    norm_num
  have hclip : clipCenter uRadiusW sRadiusW = ⟨0, 0, 1.9, 2⟩ := by
    simp only [clipCenter, hview]
    simp only [mat4MulVec, uRadiusW, projW]
    norm_num
  have hquat : viewQuaternion uRadiusW sRadiusW = ⟨0, 0, 0, 1⟩ := by
    simp only [viewQuaternion, quatQuat, uRadiusW, sRadiusW]
    norm_num
  have hcov3 : splatCov3D uRadiusW sRadiusW = ⟨64, 0, 0, 1, 0, 1⟩ := by
    simp only [splatCov3D, hquat]
    simp only [scaleQuaternionToMatrix, computeCov3D, sRadiusW]
    norm_num
  have hfocal : focal uRadiusW = ⟨2, 2⟩ := by
    simp only [focal, uRadiusW, projW]
    norm_num
  have hcov2 : splatCov2D uRadiusW sRadiusW = ⟨64, 0, 1⟩ := by
    simp only [splatCov2D]
    rw [hview, hcov3, hfocal]
    simp only [projectCov3DTo2D, Bool.false_eq_true, if_false]
    norm_num
  have hcovA : covABlur uRadiusW sRadiusW = 64 := by
    simp only [covABlur, covA]
    rw [hcov2]
    simp only [uRadiusW]
    norm_num
  have hcovB : covB uRadiusW sRadiusW = 0 := by
    simp only [covB]
    rw [hcov2]
  have hcovD : covDBlur uRadiusW sRadiusW = 1 := by
    simp only [covDBlur, covD]
    rw [hcov2]
    simp only [uRadiusW]
    norm_num
  have heig : splatEigen uRadiusW sRadiusW = eigenDecompose2x2 64 0 1 := by
    simp only [splatEigen]
    rw [hcovA, hcovB, hcovD]
  have he1 : (eigenDecompose2x2 (64 : ℝ) 0 1).eigen1 = 64 := by
    have h0 : (eigenDecompose2x2 (64 : ℝ) 0 1).eigen1 =
        0.5 * (64 + 1) + Real.sqrt
          (max 0 (0.5 * (64 + 1) * (0.5 * (64 + 1)) - (64 * 1 - 0 * 0))) := rfl
    have h1 : max (0 : ℝ)
        (0.5 * (64 + 1) * (0.5 * (64 + 1)) - (64 * 1 - 0 * 0)) = 31.5 ^ 2 := by
      norm_num
    rw [h0, h1, Real.sqrt_sq (by norm_num)]
    norm_num
  have he2 : (eigenDecompose2x2 (64 : ℝ) 0 1).eigen2 = 1 := by
    have h0 : (eigenDecompose2x2 (64 : ℝ) 0 1).eigen2 =
        0.5 * (64 + 1) - Real.sqrt
          (max 0 (0.5 * (64 + 1) * (0.5 * (64 + 1)) - (64 * 1 - 0 * 0))) := rfl
    have h1 : max (0 : ℝ)
        (0.5 * (64 + 1) * (0.5 * (64 + 1)) - (64 * 1 - 0 * 0)) = 31.5 ^ 2 := by
      norm_num
    rw [h0, h1, Real.sqrt_sq (by norm_num)]
    norm_num
  have hs1 : scale1 uRadiusW sRadiusW = 8 := by
    simp only [scale1]
    rw [heig, he1]
    have h1 : max (0 : ℝ) 64 = 8 ^ 2 := by norm_num
    rw [h1, Real.sqrt_sq (by norm_num)]
    simp only [uRadiusW]
    norm_num
  have hs2 : scale2 uRadiusW sRadiusW = 1 := by
    simp only [scale2]
    rw [heig, he2]
    have h1 : max (0 : ℝ) 1 = 1 := by norm_num
    rw [h1, Real.sqrt_one]
    simp only [uRadiusW]
    norm_num
  refine ⟨⟨?_, ?_, ?_, ?_, ?_, ?_, ?_, ?_⟩, ?_⟩
  · show 0 < uRadiusW.numSplats
    norm_num [uRadiusW]
  · show sRadiusW.rgba.w ≥ uRadiusW.minAlpha
    norm_num [uRadiusW, sRadiusW]
  · exact Or.inl (by norm_num [sRadiusW])
  · show (viewCenter uRadiusW sRadiusW).z < 0
    rw [hview]
    norm_num
  · show |(clipCenter uRadiusW sRadiusW).z| < (clipCenter uRadiusW sRadiusW).w
    rw [hclip]
    rw [abs_lt]
    constructor <;> norm_num
  · constructor <;> rw [hclip] <;> norm_num [uRadiusW]
  · show finalAlpha uRadiusW sRadiusW ≥ uRadiusW.minAlpha
    have hma : uRadiusW.minAlpha = 0 := rfl
    rw [hma, finalAlpha]
    have : (0 : ℝ) ≤ sRadiusW.rgba.w := by norm_num [sRadiusW]
    exact mul_nonneg this (Real.sqrt_nonneg _)
  · exact Or.inl (by rw [show scale1 uRadiusW sRadiusW ≥ uRadiusW.minPixelRadius ↔
      uRadiusW.minPixelRadius ≤ 8 from by rw [hs1]] ; norm_num [uRadiusW])
  · rw [hs2]
    norm_num [uRadiusW]

/-- C3 (code bug): `projectCov3DTo2D` implements both projection paths —
its orthographic path returns the XY block scaled by focal squared, its
perspective path the Jacobian propagation — but the kernel invokes it with
the hard-coded literal `false` (WebGPUSplatPipeline.ts:880), even though
the pipeline computes `isOrthographic` from the camera, passes it in the
frame parameters and stores it in a per-frame uniform.  Under the
orthographic frame parameters `uOrthoW` the computed covariance is the
perspective value `(1/4, 0, 1/4)`, while the orthographic path on the same
inputs returns `(1, 0, 1)` — the two differ, so the kernel does not honour
the declared projection mode. -/
theorem orthographic_path_unused :
    uOrthoW.isOrthographic = true ∧
    splatCov2D uOrthoW sOrthoW = ⟨1 / 4, 0, 1 / 4⟩ ∧
    projectCov3DTo2D (viewCenter uOrthoW sOrthoW) (splatCov3D uOrthoW sOrthoW)
      (focal uOrthoW) true = ⟨1, 0, 1⟩ ∧
    splatCov2D uOrthoW sOrthoW ≠
      projectCov3DTo2D (viewCenter uOrthoW sOrthoW) (splatCov3D uOrthoW sOrthoW)
        (focal uOrthoW) true := by
  have hview : viewCenter uOrthoW sOrthoW = ⟨0, 0, -2⟩ := by
    simp only [viewCenter, quatVec, v3add, v3scale, v3cross, uOrthoW, sOrthoW]
    norm_num
  have hquat : viewQuaternion uOrthoW sOrthoW = ⟨0, 0, 0, 1⟩ := by
    simp only [viewQuaternion, quatQuat, uOrthoW, sOrthoW]
    norm_num
  have hcov3 : splatCov3D uOrthoW sOrthoW = ⟨1, 0, 0, 1, 0, 1⟩ := by
    simp only [splatCov3D, hquat]
    simp only [scaleQuaternionToMatrix, computeCov3D, sOrthoW]
    norm_num
  have hfocal : focal uOrthoW = ⟨1, 1⟩ := by
    simp only [focal, uOrthoW, projW]
    norm_num
  have hpersp : splatCov2D uOrthoW sOrthoW = ⟨1 / 4, 0, 1 / 4⟩ := by
    simp only [splatCov2D]
    rw [hview, hcov3, hfocal]
    simp only [projectCov3DTo2D, Bool.false_eq_true, if_false]
    norm_num
  have hortho : projectCov3DTo2D (viewCenter uOrthoW sOrthoW)
      (splatCov3D uOrthoW sOrthoW) (focal uOrthoW) true = ⟨1, 0, 1⟩ := by
    rw [hview, hcov3, hfocal]
    simp only [projectCov3DTo2D, if_true]
    norm_num
  refine ⟨rfl, hpersp, hortho, ?_⟩
  rw [hpersp, hortho]
  intro h
  have := congrArg Cov2D.a h
  norm_num at this

/-- C5 amended: after each update the draw range exposed to the external
rasterizer is exactly `[0, numSplats*6)` — every active splat contributes
one quad, invalid splats being drawn as degenerate quads — and it coincides
with the spec's `[0, validCount*6)` exactly when every active splat passes
all validity gates (`validCount = numSplats`). -/
theorem draw_range_count (u : RenderUniforms) (c : ℕ → Splat)
    (hall : specValidCount u c = u.numSplats) :
    drawRangeCount u.numSplats = u.numSplats * 6 ∧
    drawRangeCount u.numSplats = specValidCount u c * 6 := by
  refine ⟨rfl, ?_⟩
  rw [hall]
  rfl

/-- Witness for C5 (amended) at the empty frame (`numSplats = 0`): the
short-circuit draw range is `0 = 0 * 6`. -/
theorem draw_range_count_witness :
    specValidCount uEmptyW splatsW = uEmptyW.numSplats ∧
    (drawRangeCount uEmptyW.numSplats = uEmptyW.numSplats * 6 ∧
      drawRangeCount uEmptyW.numSplats = specValidCount uEmptyW splatsW * 6) :=
  ⟨rfl, draw_range_count uEmptyW splatsW rfl⟩

/-- C5 counterexample: with one active splat that fails the `alphaValid`
gate (`rgba.w = 0 < 1 = minAlpha`) the update sets a draw range count of
`numSplats * 6 = 6`, while the spec's `validCount * 6` is `0`: the exposed
draw range is not `[0, validCount*6)`. -/
theorem draw_range_count_counterexample :
    drawRangeCount uInvalidW.numSplats = 6 ∧
    specValidCount uInvalidW splatsW = 0 ∧
    drawRangeCount uInvalidW.numSplats ≠ specValidCount uInvalidW splatsW * 6 := by
  have hinv : ¬ isValid uInvalidW (splatsW 0) 0 := by
    rintro ⟨-, ha, -⟩
    norm_num [alphaValid, splatsW, sInvalidW, uInvalidW] at ha
  have hvc : specValidCount uInvalidW splatsW = 0 := by
    have h0 : List.range uInvalidW.numSplats = [0] := rfl
    simp only [specValidCount, h0]
    rw [List.length_eq_zero, List.filter_eq_nil_iff]
    intro a ha
    have ha0 : a = 0 := by simpa using ha
    subst ha0
    simp only [decide_eq_true_eq]
    exact hinv
  refine ⟨rfl, hvc, ?_⟩
  rw [hvc]
  norm_num [drawRangeCount, uInvalidW]

end Spark
